import Mathlib

/-
Verification of the qbackend connection protocol and object-lifecycle
manager against its specification.

The Go sources are embedded shallowly:

* Go interface values (as produced by encoding/json.Unmarshal into
  map[string]interface{}) become the inductive type GoVal.  Unmarshal
  never produces an int: JSON numbers decode to float64 (constructor
  floatV).  The numeric payload of floatV is carried as an Int, which is
  exact for the integral values the protocol uses; no claim performs
  float arithmetic.
* The per-connection state (Connection in connection.go) becomes
  ConnState; the object table map[string]*QObject becomes an association
  list with map-like lookup/update/erase operations.
* Each case of Connection.Process and each helper (syncClient, syncAck,
  removeObject, activateObject, RegisterSingleton, sendUpdate) becomes a
  state-transition function translated statement by statement.
* Go's unchecked type assertions x.(T) are modelled by Option-returning
  coercions; a failing unchecked assertion is the distinguished result
  ProcResult.panics (a Go runtime panic, distinct from the controlled
  c.fatal path which records the error and closes both streams).
* The wire framing (Connection.sendMessage and the read loop in
  Connection.handle) becomes pure functions on lists of byte values.
-/

set_option autoImplicit false

namespace QBackend

/-- Go interface values as decoded by encoding/json into interface.
json.Unmarshal produces only goNil, boolV, floatV, strV, arrV and objV;
the intV constructor exists because Go interfaces can hold int, which is
what the unchecked assertion msg "serial" .(int) in Connection.Process
requires. -/
inductive GoVal where
  | goNil
  | boolV (b : Bool)
  | intV (n : Int)
  | floatV (val : Int)
  | strV (s : String)
  | arrV (elems : List GoVal)
  | objV (fields : List (String × GoVal))

/-- Association-list lookup, the model of Go map indexing (keys are
unique in every state the operations construct). -/
def alookup {α : Type} : List (String × α) → String → Option α
  | [], _ => none
  | p :: t, k => if p.1 = k then some p.2 else alookup t k

/-- Go map access msg[k] on a decoded map[string]interface: a missing key
yields the zero interface value (nil). -/
def glookup (m : List (String × GoVal)) (k : String) : GoVal :=
  match alookup m k with
  | some v => v
  | none => .goNil

/-- The checked part of a Go type assertion v.(string). -/
def asString : GoVal → Option String
  | .strV s => some s
  | _ => none

/-- The checked part of a Go type assertion v.(int).  A float64 (which is
what json.Unmarshal stores for every JSON number) is not an int. -/
def asInt : GoVal → Option Int
  | .intV n => some n
  | _ => none

/-- The checked part of a Go type assertion v.([]interface). -/
def asArr : GoVal → Option (List GoVal)
  | .arrV l => some l
  | _ => none

/-- Messages the owning side emits, as written by Connection.sendMessage
callers (only the fields the claims observe are carried). -/
inductive OutMsg where
  | syncMsg (serial : Int)
  | objectReset (id : String) (data : List (String × GoVal))
  | invokeReturn (id ret errStr : String) (values : List GoVal)

/-- One record of the owning side object table.  The boolean fields
clientRef, syncRef and syncPendingRef are exactly the fields
Connection.Process, syncClient, syncAck, removeObject, activateObject and
RegisterSingleton read and write on *QObject.  typeName and methods stand
for impl.typeInfo.Name and the method set of impl.typeInfo.  props stands
for the property map produced by impl.marshalObject.  callValues and
callError abstract the result of the reflective method call performed by
QObject.invoke for a method that is declared (the struct-reflection
mechanism is an external black box per the spec's scope); the
declared-method lookup itself is modelled faithfully via methods.
refGraceTime is the field of the same name in backend/object.go. -/
structure ObjRecord where
  clientRef : Bool
  syncRef : Bool
  syncPendingRef : Bool
  typeName : String
  methods : List String
  props : List (String × GoVal)
  callValues : List GoVal
  callError : Option String
  refGraceTime : Int

/-- Connection state: the fields of Connection in connection.go that the
claims observe, plus the list of messages written to the out stream and a
current time (for the grace-period field).  syncSerial and syncObjects
are Go ints. -/
structure ConnState where
  objects : List (String × ObjRecord)
  instantiable : List (String × List String)
  singletons : List String
  knownTypes : List String
  err : Option String
  inClosed : Bool
  outClosed : Bool
  syncSerial : Int
  syncObjects : Int
  output : List OutMsg
  now : Int

/-- Map assignment for a key already present. -/
def updateObj (l : List (String × ObjRecord)) (id : String) (q : ObjRecord) :
    List (String × ObjRecord) :=
  l.map (fun p => if p.1 = id then (id, q) else p)

/-- Map delete. -/
def eraseObj (l : List (String × ObjRecord)) (id : String) : List (String × ObjRecord) :=
  l.filter (fun p => ¬ (p.1 = id))

/-- Map assignment that inserts when the key is absent. -/
def putObj (l : List (String × ObjRecord)) (id : String) (q : ObjRecord) :
    List (String × ObjRecord) :=
  match alookup l id with
  | some _ => updateObj l id q
  | none => l ++ [(id, q)]

/-- Set insertion on a set of names (knownTypes is map[string]struct). -/
def insertName (l : List String) (n : String) : List String :=
  if n ∈ l then l else n :: l

/-- Connection.fatal: records the first error and closes both streams;
subsequent calls have no effect on state. -/
def fatalSt (s : ConnState) (m : String) : ConnState :=
  if s.err = none then { s with err := some m, inClosed := true, outClosed := true } else s

/-- Connection.removeObject: deletes the table entry (the zeroing of the
record's flags and the deactivation callback act on the removed record
and are not observable through the table). -/
def removeObjectF (s : ConnState) (id : String) : ConnState :=
  { s with objects := eraseObj s.objects id }

/-- Modelled from the spec: QObject.Referenced for the object record used
by connection.go.  The declaration of the QObject struct that
connection.go's field accesses (clientRef, syncRef, syncPendingRef)
compile against is not among the sources; the spec defines the Referenced
state as clientRef or syncRef or syncPendingRef being true. -/
def connReferenced (q : ObjRecord) : Bool :=
  q.clientRef || q.syncRef || q.syncPendingRef

/-- Connection.sendUpdate: nothing unless the object is referenced,
otherwise an OBJECT_RESET carrying the full property snapshot
(impl.marshalObject); marshal failure (a warning) is not modelled since
props are already a marshalled map here. -/
def sendUpdateC (s : ConnState) (id : String) (q : ObjRecord) : ConnState :=
  if ¬ connReferenced q then s
  else { s with output := s.output ++ [.objectReset id q.props] }

/-- The OBJECT_REF case of Connection.Process: set clientRef and record
that the client has acknowledged an object of this type; unknown
identifier is only a warning. -/
def procObjectRef (s : ConnState) (id : String) : ConnState :=
  match alookup s.objects id with
  | some q =>
      { s with objects := updateObj s.objects id { q with clientRef := true },
               knownTypes := insertName s.knownTypes q.typeName }
  | none => s

/-- The OBJECT_DEREF case of Connection.Process: clear clientRef, then
remove the object unless syncRef or syncPendingRef protects it; unknown
identifier is only a warning. -/
def procObjectDeref (s : ConnState) (id : String) : ConnState :=
  match alookup s.objects id with
  | some q =>
      if !q.syncRef && !q.syncPendingRef then removeObjectF s id
      else { s with objects := updateObj s.objects id { q with clientRef := false } }
  | none => s

/-- The OBJECT_QUERY case of Connection.Process: full refresh for a known
object, fatal for an unknown one. -/
def procObjectQuery (s : ConnState) (id : String) : ConnState :=
  match alookup s.objects id with
  | some q => sendUpdateC s id q
  | none => fatalSt s "query of unknown object"

/-- Connection.syncAck: a serial different from the in-flight one, or an
ack with no sync in flight (syncSerial zero), is fatal.  Otherwise clear
syncSerial, clear every syncPendingRef, and remove every object whose
clientRef and syncRef are both false. -/
def syncAckFun (p : String × ObjRecord) : Option (String × ObjRecord) :=
  if !p.2.clientRef && !p.2.syncRef then none
  else some (p.1, { p.2 with syncPendingRef := false })

def syncAckF (s : ConnState) (serial : Int) : ConnState :=
  if serial ≠ s.syncSerial ∨ s.syncSerial = 0 then fatalSt s "Incorrect SYNC serial"
  else
    { s with syncSerial := 0, objects := s.objects.filterMap syncAckFun }

/-- Connection.syncClient: no-op when a sync is already in flight or no
objects were counted; otherwise snapshot every syncRef into
syncPendingRef, bump the serial, reset the counter and send SYNC. -/
def syncClientF (s : ConnState) : ConnState :=
  if s.syncSerial ≠ 0 ∨ s.syncObjects = 0 then s
  else
    { s with
      objects := s.objects.map (fun p =>
        if p.2.syncRef then (p.1, { p.2 with syncRef := false, syncPendingRef := true }) else p),
      syncSerial := s.syncSerial + 1,
      syncObjects := 0,
      output := s.output ++ [.syncMsg (s.syncSerial + 1)] }

/-- Connection.activateObject for a fresh record: put it in the table;
if syncRef is not yet set, set it (even when there is a clientRef, to
avoid a race with an in-flight deref) and count the object toward the
sync threshold. -/
def activateObjectF (s : ConnState) (id : String) (q : ObjRecord) : ConnState :=
  if !q.syncRef then
    { s with objects := putObj s.objects id { q with syncRef := true },
             syncObjects := s.syncObjects + 1 }
  else
    { s with objects := putObj s.objects id q }

/-- A fresh object record of a given type (zero flags, grace time unset). -/
def freshRecord (typeName : String) (methods : List String) : ObjRecord :=
  { clientRef := false, syncRef := false, syncPendingRef := false,
    typeName := typeName, methods := methods, props := [],
    callValues := [], callError := none, refGraceTime := 0 }

/-- The OBJECT_CREATE case of Connection.Process (after the identifier
and typeName assertions): duplicate identifier and unknown type are
fatal; otherwise a fresh instance with clientRef set is activated. -/
def procObjectCreate (s : ConnState) (id : String) (typeName : String) : ConnState :=
  match alookup s.objects id with
  | some _ => fatalSt s "create of duplicate identifier"
  | none =>
      match alookup s.instantiable typeName with
      | none => fatalSt s "create of unknown type"
      | some methods =>
          activateObjectF s id { freshRecord typeName methods with clientRef := true }

/-- QObject.invoke at the protocol level: a method name not declared in
the type descriptor yields the error "method does not exist"; for a
declared method the reflective call itself is external (spec scope) and
its outcome is abstracted by the record's callValues and callError. -/
def invokeModel (q : ObjRecord) (method : String) : List GoVal × Option String :=
  if method ∈ q.methods then (q.callValues, q.callError)
  else ([], some "method does not exist")

/-- The INVOKE case of Connection.Process after the method assertion and
the parameters check: invoke on an unknown object is fatal; otherwise the
method is invoked and, when a return id was supplied, an INVOKE_RETURN
carrying the error string (empty for success) and the values is sent. -/
def procInvoke (s : ConnState) (id method : String) (returnId : String) : ConnState :=
  match alookup s.objects id with
  | none => fatalSt s "invoke on unknown object"
  | some q =>
      let re := invokeModel q method
      if returnId ≠ "" then
        { s with output := s.output ++
            [.invokeReturn id returnId (match re.2 with | some e => e | none => "") re.1] }
      else s

/-- Connection.RegisterSingleton: name validation and duplicate check
return an error (none) without touching the connection; otherwise the
record gets clientRef set, is activated, and the name is recorded in the
singletons table.  The first-character uppercase test models Go's
strings.ToUpper on the leading character. -/
def singletonNameOk (name : String) : Bool :=
  name.length ≥ 1 && (let c := name.get 0; c.toUpper = c)

def registerSingletonF (s : ConnState) (name typeName : String) (methods : List String) :
    Option ConnState :=
  if ¬ singletonNameOk name then none
  else if name ∈ s.singletons then none
  else
    let s1 := activateObjectF s name { freshRecord typeName methods with clientRef := true }
    some { s1 with singletons := name :: s1.singletons }

/-- Result of handling one queued payload: either a Go runtime panic (an
unchecked type assertion failed) or the successor connection state. -/
inductive ProcResult where
  | panics
  | next (s : ConnState)

/-- One iteration of the dispatch in Connection.Process on an already
json-decoded message.  Faithful to the statement order of the source:
the unchecked assertion msg "identifier" .(string) runs before the
command switch; SYNC_ACK asserts msg "serial" .(int) unchecked;
OBJECT_CREATE asserts msg "typeName" .(string) unchecked after the
duplicate check; INVOKE asserts msg "method" .(string) unchecked, then
checks msg "parameters" .([]interface) with the two-value form (fatal,
not panic) and reads msg "return" with the two-value form (absent means
empty string). -/
def processMsg (s : ConnState) (msg : List (String × GoVal)) : ProcResult :=
  match asString (glookup msg "identifier") with
  | none => .panics
  | some identifier =>
    match glookup msg "command" with
    | .strV "OBJECT_REF" => .next (procObjectRef s identifier)
    | .strV "OBJECT_DEREF" => .next (procObjectDeref s identifier)
    | .strV "SYNC_ACK" =>
        match asInt (glookup msg "serial") with
        | none => .panics
        | some serial => .next (syncAckF s serial)
    | .strV "OBJECT_QUERY" => .next (procObjectQuery s identifier)
    | .strV "OBJECT_CREATE" =>
        match alookup s.objects identifier with
        | some _ => .next (fatalSt s "create of duplicate identifier")
        | none =>
            match asString (glookup msg "typeName") with
            | none => .panics
            | some typeName => .next (procObjectCreate s identifier typeName)
    | .strV "INVOKE" =>
        match asString (glookup msg "method") with
        | none => .panics
        | some method =>
            match alookup s.objects identifier with
            | some _ =>
                match asArr (glookup msg "parameters") with
                | none => .next (fatalSt s "invoke with invalid parameters")
                | some _ =>
                    let returnId := match asString (glookup msg "return") with
                      | some r => r
                      | none => ""
                    .next (procInvoke s identifier method returnId)
            | none => .next (fatalSt s "invoke on unknown object")
    | _ => .next (fatalSt s "unknown command")

/-- The empty connection produced by NewConnectionSplit (time zero). -/
def initialState : ConnState :=
  { objects := [], instantiable := [], singletons := [], knownTypes := [],
    err := none, inClosed := false, outClosed := false,
    syncSerial := 0, syncObjects := 0, output := [], now := 0 }

/-
Descriptor elision (QObject.MarshalJSON in backend/object.go and the
knownTypes table of connection.go), and the consuming side's
QBackendConnection::newTypeMetaObject from qbackendconnection.cpp.
-/

/-- The type part of a serialized object reference: either the full
descriptor or the elided marker carrying only the name and omitted:true. -/
inductive RefPayload where
  | full (name : String)
  | elided (name : String)
deriving DecidableEq

/-- The grace-period constant objectRefGracePeriod (5 seconds). -/
def objectRefGracePeriod : Int := 5

/-- QObject.refsChanged from backend/object.go: when the object is
unreferenced, push the grace deadline to now plus the grace period. -/
def refsChangedF (now : Int) (q : ObjRecord) : ObjRecord :=
  if ¬ connReferenced q then { q with refGraceTime := now + objectRefGracePeriod } else q

/-- QObject.MarshalJSON: the type descriptor is elided exactly when the
connection's knownTypes table (typeIsAcknowledged) already holds the type
name; marshaling also resets the reference grace period via refsChanged.
Returns the successor state and the emitted reference payload. -/
def marshalRefStep (s : ConnState) (id : String) : ConnState × Option RefPayload :=
  match alookup s.objects id with
  | none => (s, none)
  | some q =>
      let payload := if q.typeName ∈ s.knownTypes then RefPayload.elided q.typeName
                     else RefPayload.full q.typeName
      ({ s with objects := updateObj s.objects id (refsChangedF s.now q) }, some payload)

/-- A type descriptor as received by the consuming side: name, the
omitted flag, and the declared property names (an elided marker carries
no properties). -/
structure CType where
  name : String
  omitted : Bool
  props : List String
deriving DecidableEq

/-- QBackendConnection::newTypeMetaObject: look the name up in the
per-connection type cache; on a miss, warn if the descriptor was elided
(omitted), then build a metaobject from the descriptor's properties (an
elided descriptor yields zero properties) and cache it.  Returns the
metaobject's property list, the new cache, and whether the
cache-miss-on-elided warning fired; the function never fails the
connection. -/
def newTypeMetaObjectF (cache : List (String × List String)) (t : CType) :
    List String × List (String × List String) × Bool :=
  match alookup cache t.name with
  | some mo => (mo, cache, false)
  | none =>
      let warned := t.omitted
      let mo := t.props
      (mo, (t.name, mo) :: cache, warned)

/-
QObject.Changed, QObject.ResetProperties and QObject.Emit-side behaviour
from backend/object.go, over the boolean-ref object state of that file.
-/

/-- The object-side state of backend/object.go: the ref flag read by
Referenced(), whether a connection is assigned (o.c non-nil), the id, and
the marshalled property snapshot (marshalObject output). -/
structure BQObject where
  ref : Bool
  hasConn : Bool
  id : String
  props : List (String × GoVal)

/-- Connection.sendUpdate as called from ResetProperties: nothing unless
the object is referenced, else one OBJECT_RESET with the full property
snapshot. -/
def sendUpdateO (o : BQObject) : List OutMsg :=
  if ¬ o.ref then [] else [.objectReset o.id o.props]

/-- QObject.ResetProperties: nothing when unreferenced or without a
connection, otherwise sendUpdate. -/
def resetPropertiesO (o : BQObject) : List OutMsg :=
  if ¬ o.ref ∨ ¬ o.hasConn then [] else sendUpdateO o

/-- QObject.Changed: the property argument is ignored and all updates are
full resets. -/
def changedO (o : BQObject) (_property : String) : List OutMsg :=
  resetPropertiesO o

/-
Wire framing: Connection.sendMessage writes
  <decimal length><space><payload><newline>
and the read loop of Connection.handle parses frames by counted position.
Bytes are modelled as natural numbers; payload bytes are opaque.
-/

/-- Little-endian base-ten digits, computed with explicit fuel so that
concrete frames evaluate by reduction (the fuel n always suffices). -/
def natDigitsAux : Nat → Nat → List Nat
  | 0, _ => []
  | _ + 1, 0 => []
  | fuel + 1, n + 1 => ((n + 1) % 10) :: natDigitsAux fuel ((n + 1) / 10)

/-- The decimal ASCII digits of a natural number (most significant
first), as produced by the %d verb for a positive length. -/
def natDecimalDigits (n : Nat) : List Nat :=
  (natDigitsAux n n).reverse.map (· + 48)

/-- Connection.sendMessage framing of one payload. -/
def encodeFrame (p : List Nat) : List Nat :=
  natDecimalDigits p.length ++ 32 :: p ++ [10]

/-- A sequence of payloads framed and concatenated. -/
def encodeFrames (msgs : List (List Nat)) : List Nat :=
  (msgs.map encodeFrame).flatten

/-- Split a buffer at the first occurrence of a byte: the bytes before it
and the bytes after it (bufio.Reader.ReadString semantics, with the
delimiter dropped from both parts). -/
def splitAtFirst (sep : Nat) : List Nat → Option (List Nat × List Nat)
  | [] => none
  | b :: rest =>
      if b = sep then some ([], rest)
      else match splitAtFirst sep rest with
           | some (x, y) => some (b :: x, y)
           | none => none

/-- ASCII decimal digit test. -/
def isDigitB (b : Nat) : Bool := 48 ≤ b && b ≤ 57

/-- Decimal value of a big-endian digit-byte list. -/
def digitsToNat (l : List Nat) : Nat :=
  l.foldl (fun a d => 10 * a + (d - 48)) 0

/-- The optional leading sign accepted by strconv.ParseInt. -/
def stripSign (s : List Nat) : Bool × List Nat :=
  match s with
  | c :: rest => if c = 43 then (false, rest) else if c = 45 then (true, rest) else (false, s)
  | [] => (false, s)

/-- strconv.ParseInt(s, 10, 32) with the error discarded, as in the read
loop: 0 on a syntax error, the nearest int32 bound on a range error,
otherwise the value. -/
def parseGoInt (s : List Nat) : Int :=
  let p := stripSign s
  if p.2.isEmpty || !(p.2.all isDigitB) then 0
  else
    let v : Int := if p.1 then -(digitsToNat p.2 : Int) else (digitsToNat p.2 : Int)
    if v < -(2 ^ 31) then -(2 ^ 31)
    else if v > 2 ^ 31 - 1 then 2 ^ 31 - 1
    else v

/-- Outcome of one pass of the read loop over the buffered bytes. -/
inductive ReadResult where
  | incomplete
  | errR
  | frame (payload rest : List Nat)
deriving DecidableEq

/-- One iteration of the read loop in Connection.handle: read through the
first space (incomplete without one); an empty size field is invalid; a
size below 1 (including every parse failure) is invalid; then exactly
size payload bytes (incomplete until buffered) and a terminating newline
located by counted position, never by scanning. -/
def readFrame (buf : List Nat) : ReadResult :=
  match splitAtFirst 32 buf with
  | none => .incomplete
  | some (szBytes, rest) =>
      if szBytes.isEmpty then .errR
      else
        let n := parseGoInt szBytes
        if n < 1 then .errR
        else
          let nn := n.toNat
          if rest.length < nn + 1 then .incomplete
          else if rest.get? nn ≠ some 10 then .errR
          else .frame (rest.take nn) (rest.drop (nn + 1))

/-- Greedy frame extraction with fuel (each frame consumes at least one
byte, so fuel equal to the buffer length always suffices): the extracted
payloads, plus the unconsumed remainder (some) or a framing error
(none). -/
def extractAllF : Nat → List Nat → List (List Nat) × Option (List Nat)
  | 0, buf => ([], some buf)
  | fuel + 1, buf =>
      match readFrame buf with
      | .incomplete => ([], some buf)
      | .errR => ([], none)
      | .frame p r =>
          let rec1 := extractAllF fuel r
          (p :: rec1.1, rec1.2)

/-- Greedy frame extraction from a buffer. -/
def extractAll (buf : List Nat) : List (List Nat) × Option (List Nat) :=
  extractAllF buf.length buf

/-- The reader fed chunk by chunk: each arriving chunk is appended to the
buffer and every complete frame is extracted.  Returns none on a framing
error, otherwise all frames emitted in order and the final leftover. -/
def runChunks : List (List Nat) → List Nat → Option (List (List Nat) × List Nat)
  | [], buf => some ([], buf)
  | c :: cs, buf =>
      match extractAll (buf ++ c) with
      | (_, none) => none
      | (fs, some r) =>
          match runChunks cs r with
          | some (fs1, rFinal) => some (fs ++ fs1, rFinal)
          | none => none

/-
Concrete connection traces used to evaluate the code on specific inputs.
-/

/-- A connection with one registered instantiable type named T. -/
def stateWithTypeT : ConnState :=
  { initialState with instantiable := [("T", ["foo"])] }

/-- Trace: the client creates object a of type T (clientRef and syncRef
set), the owning side starts a sync epoch (serial 1, snapshotting syncRef
into syncPendingRef), and the client then releases object a mid-epoch. -/
def c1demoPre : ConnState :=
  procObjectDeref (syncClientF (procObjectCreate stateWithTypeT "a" "T")) "a"

/-- Trace: a singleton Root of type RootType is registered, one sync
epoch completes (SYNC serial 1, then its SYNC_ACK). -/
def singletonDemoStart : ConnState :=
  (registerSingletonF initialState "Root" "RootType" []).getD initialState

def singletonDemoAfterEpoch : ConnState :=
  syncAckF (syncClientF singletonDemoStart) 1

def singletonDemoAfterDeref : ConnState :=
  procObjectDeref singletonDemoAfterEpoch "Root"

/-- A connection holding one unreferenced object a (just serialized as a
parameter, not yet acquired) with a sync epoch in flight (serial 1). -/
def graceDemoBase : ConnState :=
  { initialState with objects := [("a", freshRecord "T" [])], syncSerial := 1 }

/-- The same connection right after object a's reference was marshalled
(QObject.MarshalJSON calls refsChanged, pushing the grace deadline to
now plus five seconds). -/
def graceDemoMarshaled : ConnState :=
  (marshalRefStep graceDemoBase "a").1

/-- A connection holding one object a of type T with a declared method
foo, currently client-referenced. -/
def invokeDemoState : ConnState :=
  { initialState with objects := [("a", { freshRecord "T" ["foo"] with clientRef := true })] }

/-- A connection holding one unacknowledged object a of type T. -/
def elisionDemoState : ConnState :=
  { initialState with objects := [("a", freshRecord "T" [])] }

def elisionFirst : ConnState × Option RefPayload :=
  marshalRefStep elisionDemoState "a"

def elisionSecond : ConnState × Option RefPayload :=
  marshalRefStep elisionFirst.1 "a"

/-
Map lemmas.
-/

theorem alookup_update_self {l : List (String × ObjRecord)} {id : String} {q0 : ObjRecord}
    (q : ObjRecord) (h : alookup l id = some q0) :
    alookup (updateObj l id q) id = some q := by
  induction l with
  | nil => simp [alookup] at h
  | cons a t ih =>
      by_cases ha : a.1 = id
      · simp [alookup, updateObj, ha]
      · simp only [alookup, updateObj, List.map_cons, if_neg ha] at h ⊢
        exact ih h

theorem alookup_update_ne {l : List (String × ObjRecord)} {id k : String} {q : ObjRecord}
    (h : k ≠ id) : alookup (updateObj l id q) k = alookup l k := by
  induction l with
  | nil => simp [alookup, updateObj]
  | cons a t ih =>
      by_cases ha : a.1 = id
      · have : ¬ (id = k) := fun hk => h hk.symm
        simp [alookup, updateObj, ha, this]
        exact ih
      · simp only [updateObj, List.map_cons, if_neg ha, alookup]
        by_cases hk : a.1 = k
        · simp [hk]
        · simp only [if_neg hk]
          exact ih

theorem updateObj_updateObj (l : List (String × ObjRecord)) (id : String) (q1 q2 : ObjRecord) :
    updateObj (updateObj l id q1) id q2 = updateObj l id q2 := by
  induction l with
  | nil => rfl
  | cons a t ih =>
      by_cases ha : a.1 = id
      · simp [updateObj, ha] at ih ⊢
        exact ih
      · simp [updateObj, ha] at ih ⊢
        exact ih

theorem alookup_erase_self (l : List (String × ObjRecord)) (id : String) :
    alookup (eraseObj l id) id = none := by
  induction l with
  | nil => rfl
  | cons a t ih =>
      by_cases ha : a.1 = id
      · simpa [eraseObj, ha] using ih
      · simpa [eraseObj, alookup, ha] using ih

theorem insertName_mem_self (l : List String) (n : String) : n ∈ insertName l n := by
  unfold insertName
  split
  · assumption
  · exact List.mem_cons_self n l

theorem insertName_idem (l : List String) (n : String) :
    insertName (insertName l n) n = insertName l n := by
  have h : n ∈ insertName l n := insertName_mem_self l n
  unfold insertName
  rw [if_pos]
  exact h

theorem fatalSt_objects (s : ConnState) (m : String) : (fatalSt s m).objects = s.objects := by
  unfold fatalSt
  split <;> rfl

theorem syncAckFun_none {p : String × ObjRecord} (h : syncAckFun p = none) :
    p.2.clientRef = false ∧ p.2.syncRef = false := by
  unfold syncAckFun at h
  split at h
  · next hc =>
      rcases Bool.and_eq_true _ _ |>.mp hc with ⟨h1, h2⟩
      exact ⟨Bool.not_eq_true' .. |>.mp h1, Bool.not_eq_true' .. |>.mp h2⟩
  · exact absurd h (by simp)

theorem syncAckFun_some_key (p : String × ObjRecord) {b : String × ObjRecord}
    (h : syncAckFun p = some b) : b.1 = p.1 := by
  unfold syncAckFun at h
  split at h
  · exact absurd h (by simp)
  · cases h; rfl

theorem alookup_filterMap_syncAck {l : List (String × ObjRecord)} {id : String} {q : ObjRecord}
    (h : alookup l id = some q) (h2 : alookup (l.filterMap syncAckFun) id = none) :
    q.clientRef = false ∧ q.syncRef = false := by
  induction l with
  | nil => simp [alookup] at h
  | cons a t ih =>
      by_cases ha : a.1 = id
      · rw [alookup, if_pos ha] at h
        cases h
        cases hf : syncAckFun a with
        | none => exact syncAckFun_none hf
        | some b =>
            have hb : b.1 = id := (syncAckFun_some_key a hf).trans ha
            rw [List.filterMap_cons, hf] at h2
            rw [alookup, if_pos hb] at h2
            exact absurd h2 (by simp)
      · rw [alookup, if_neg ha] at h
        cases hf : syncAckFun a with
        | none =>
            rw [List.filterMap_cons, hf] at h2
            exact ih h h2
        | some b =>
            have hb : ¬ (b.1 = id) := by
              rw [syncAckFun_some_key a hf]; exact ha
            rw [List.filterMap_cons, hf] at h2
            rw [alookup, if_neg hb] at h2
            exact ih h h2

/-
Claim theorems.
-/

/-- C1 (counterexample): an object whose syncPendingRef is true when the
matching SYNC_ACK is received, with clientRef and syncRef both false at
that moment, IS removed by that ack's removal pass.  The trace reaches
the state through the code's own steps: OBJECT_CREATE of a, sync epoch
start (serial 1, snapshotting syncRef into syncPendingRef), OBJECT_DEREF
of a mid-epoch (protected there by syncPendingRef), then SYNC_ACK 1. -/
theorem c1_counterexample :
    alookup c1demoPre.objects "a"
      = some { freshRecord "T" ["foo"] with syncPendingRef := true } ∧
    c1demoPre.syncSerial = 1 ∧
    c1demoPre.err = none ∧
    alookup (syncAckF c1demoPre 1).objects "a" = none :=
  ⟨rfl, rfl, rfl, rfl⟩

/-- C1 (amended): syncPendingRef protects an object from removal at the
OBJECT_DEREF decision point even when syncRef is false; at both removal
decision points an object is removed only with all liveness flags false
at the moment of the decision: an OBJECT_DEREF removes only when syncRef
and syncPendingRef are false (clientRef having just been cleared), and
the SYNC_ACK pass removes only when clientRef and syncRef are false
(syncPendingRef having just been cleared). -/
theorem c1_sync_pending_protection :
    (∀ (s : ConnState) (id : String) (q : ObjRecord),
        alookup s.objects id = some q → q.syncPendingRef = true →
        alookup (procObjectDeref s id).objects id = some { q with clientRef := false }) ∧
    (∀ (s : ConnState) (id : String) (q : ObjRecord),
        alookup s.objects id = some q →
        alookup (procObjectDeref s id).objects id = none →
        q.syncRef = false ∧ q.syncPendingRef = false) ∧
    (∀ (s : ConnState) (serial : Int) (id : String) (q : ObjRecord),
        alookup s.objects id = some q →
        alookup (syncAckF s serial).objects id = none →
        q.clientRef = false ∧ q.syncRef = false) := by
  refine ⟨?_, ?_, ?_⟩
  · intro s id q h hp
    have hcond : (!q.syncRef && !q.syncPendingRef) = false := by
      rw [hp]; simp
    simp only [procObjectDeref, h, hcond, Bool.false_eq_true, if_false]
    exact alookup_update_self _ h
  · intro s id q h h2
    simp only [procObjectDeref, h] at h2
    by_cases hcond : (!q.syncRef && !q.syncPendingRef) = true
    · rcases Bool.and_eq_true _ _ |>.mp hcond with ⟨h1, h2'⟩
      exact ⟨Bool.not_eq_true' .. |>.mp h1, Bool.not_eq_true' .. |>.mp h2'⟩
    · rw [Bool.not_eq_true] at hcond
      simp only [hcond, Bool.false_eq_true, if_false] at h2
      rw [alookup_update_self { q with clientRef := false } h] at h2
      exact absurd h2 (by simp)
  · intro s serial id q h h2
    unfold syncAckF at h2
    split at h2
    · rw [fatalSt_objects] at h2
      rw [h] at h2
      exact absurd h2 (by simp)
    · exact alookup_filterMap_syncAck h h2

/-- C1 witness: a record with syncPendingRef set survives an
OBJECT_DEREF with clientRef cleared. -/
theorem c1_witness :
    alookup (procObjectDeref
        { initialState with
          objects := [("w", { freshRecord "W" [] with syncPendingRef := true })] }
        "w").objects "w"
      = some { freshRecord "W" [] with syncPendingRef := true } :=
  c1_sync_pending_protection.1
    { initialState with
      objects := [("w", { freshRecord "W" [] with syncPendingRef := true })] }
    "w" { freshRecord "W" [] with syncPendingRef := true } rfl rfl

/-- C2: the code removes a singleton.  After RegisterSingleton Root the
record is in the table with clientRef and syncRef set and Root is in the
singletons table; after one completed sync epoch it survives (clientRef
still set); a single OBJECT_DEREF Root then deletes the record from the
object table with no error raised, although the singletons table still
lists it.  This contradicts the never-removable documentation of
singletons. -/
theorem c2_singleton_removed_demo :
    singletonDemoStart.singletons = ["Root"] ∧
    alookup singletonDemoStart.objects "Root"
      = some { freshRecord "RootType" [] with clientRef := true, syncRef := true } ∧
    singletonDemoAfterEpoch.err = none ∧
    alookup singletonDemoAfterEpoch.objects "Root"
      = some { freshRecord "RootType" [] with clientRef := true } ∧
    singletonDemoAfterDeref.err = none ∧
    alookup singletonDemoAfterDeref.objects "Root" = none ∧
    singletonDemoAfterDeref.singletons = ["Root"] :=
  ⟨rfl, rfl, rfl, rfl, rfl, rfl, rfl⟩

/-- C3: the grace timer is ignored at both removal decision points.  The
state holds one unreferenced object a whose reference was just
marshalled, so refsChanged pushed its grace deadline to now plus five
seconds (still in the future); an OBJECT_DEREF removes it immediately,
and so does the SYNC_ACK removal pass of the in-flight epoch. -/
theorem c3_grace_period_ignored_demo :
    alookup graceDemoMarshaled.objects "a"
      = some { freshRecord "T" [] with refGraceTime := 5 } ∧
    graceDemoMarshaled.now < 5 ∧
    alookup (procObjectDeref graceDemoMarshaled "a").objects "a" = none ∧
    alookup (syncAckF graceDemoMarshaled 1).objects "a" = none :=
  ⟨rfl, by decide, rfl, rfl⟩

/-- C4 (counterexample): an INVOKE naming a method that the type
descriptor of an existing object does not declare is not fatal: the
connection records no error, the object table is untouched, and the error
is surfaced as the INVOKE_RETURN for that one call. -/
theorem c4_counterexample :
    alookup invokeDemoState.objects "a"
      = some { freshRecord "T" ["foo"] with clientRef := true } ∧
    "nope" ∉ ({ freshRecord "T" ["foo"] with clientRef := true } : ObjRecord).methods ∧
    (procInvoke invokeDemoState "a" "nope" "r1").err = none ∧
    (procInvoke invokeDemoState "a" "nope" "r1").output
      = [.invokeReturn "a" "r1" "method does not exist" []] ∧
    (procInvoke invokeDemoState "a" "nope" "r1").objects = invokeDemoState.objects :=
  ⟨rfl, by decide, rfl, rfl, rfl⟩

/-- C4 (amended): an INVOKE naming an undeclared method on a known
object fails only that call: the connection state (error and object
table) is unchanged and, when a return id was supplied, an INVOKE_RETURN
carrying the error string is sent; only an INVOKE on an unknown object
identifier is fatal. -/
theorem c4_unknown_method_error_result :
    (∀ (s : ConnState) (id m ret : String) (q : ObjRecord),
        alookup s.objects id = some q → m ∉ q.methods →
        (procInvoke s id m ret).err = s.err ∧
        (procInvoke s id m ret).objects = s.objects ∧
        (ret ≠ "" → (procInvoke s id m ret).output
            = s.output ++ [.invokeReturn id ret "method does not exist" []]) ∧
        (ret = "" → (procInvoke s id m ret).output = s.output)) ∧
    (∀ (s : ConnState) (id m ret : String),
        alookup s.objects id = none → s.err = none →
        (procInvoke s id m ret).err = some "invoke on unknown object") := by
  constructor
  · intro s id m ret q h hm
    simp only [procInvoke, invokeModel, h, if_neg hm]
    by_cases hret : ret = ""
    · subst hret
      simp
    · rw [if_pos hret]
      refine ⟨rfl, rfl, fun _ => rfl, fun h2 => absurd h2 hret⟩
  · intro s id m ret h herr
    simp only [procInvoke, h, fatalSt, if_pos herr]

/-- C4 witness: the invocation of the undeclared method nope on the
known object a leaves the connection error unchanged. -/
theorem c4_witness :
    (procInvoke invokeDemoState "a" "nope" "r1").err = invokeDemoState.err ∧
    (procInvoke invokeDemoState "a" "nope" "r1").output
      = invokeDemoState.output ++ [.invokeReturn "a" "r1" "method does not exist" []] :=
  have h := c4_unknown_method_error_result.1 invokeDemoState "a" "nope" "r1"
    { freshRecord "T" ["foo"] with clientRef := true } rfl (by decide)
  ⟨h.1, h.2.2.1 (by decide)⟩

/-- C6: malformed or absent required fields do not reach the controlled
fatal path: the very message the consumer sends for the epoch ack,
SYNC_ACK with a numeric serial and no identifier, makes Process panic on
the unchecked identifier assertion; adding a string identifier still
panics on the unchecked serial assertion, because a decoded JSON number
is a float64 and never an int.  An unknown command with a well-formed
identifier, by contrast, does take the controlled fatal path. -/
theorem c6_malformed_fields_panic_demo :
    processMsg initialState [("command", .strV "SYNC_ACK"), ("serial", .floatV 1)]
      = .panics ∧
    processMsg initialState
        [("command", .strV "SYNC_ACK"), ("identifier", .strV "x"), ("serial", .floatV 1)]
      = .panics ∧
    processMsg initialState [("command", .strV "BOGUS"), ("identifier", .strV "x")]
      = .next (fatalSt initialState "unknown command") :=
  ⟨rfl, rfl, rfl⟩

/-- C7: an OBJECT_DEREF for an unknown identifier is only a warning and
leaves the state fully unchanged; an OBJECT_QUERY for an unknown
identifier is fatal (error recorded, object table untouched); a SYNC_ACK
whose serial differs from the in-flight one, or arriving with no sync in
flight, is fatal (error recorded, object table untouched). -/
theorem c7_unknown_id_policy :
    (∀ (s : ConnState) (id : String),
        alookup s.objects id = none → procObjectDeref s id = s) ∧
    (∀ (s : ConnState) (id : String),
        alookup s.objects id = none → s.err = none →
        (procObjectQuery s id).err = some "query of unknown object" ∧
        (procObjectQuery s id).objects = s.objects) ∧
    (∀ (s : ConnState) (serial : Int),
        (serial ≠ s.syncSerial ∨ s.syncSerial = 0) → s.err = none →
        (syncAckF s serial).err = some "Incorrect SYNC serial" ∧
        (syncAckF s serial).objects = s.objects) := by
  refine ⟨?_, ?_, ?_⟩
  · intro s id h
    simp only [procObjectDeref, h]
  · intro s id h herr
    simp only [procObjectQuery, h, fatalSt, if_pos herr]
    exact ⟨trivial, trivial⟩
  · intro s serial h herr
    unfold syncAckF
    rw [if_pos h]
    simp only [fatalSt, if_pos herr]
    exact ⟨trivial, trivial⟩

/-- C7 witness: a dereference of an identifier unknown to the empty
connection is a no-op, and a SYNC_ACK with no sync in flight records the
fatal serial error. -/
theorem c7_witness :
    procObjectDeref initialState "x" = initialState ∧
    (syncAckF initialState 5).err = some "Incorrect SYNC serial" :=
  ⟨c7_unknown_id_policy.1 initialState "x" rfl,
   (c7_unknown_id_policy.2.2 initialState 5 (Or.inl (by decide)) rfl).1⟩

/-- C8 (counterexample): merely having sent the full descriptor does not
trigger elision.  The owning side serializes a reference to object a of
type T twice with no OBJECT_REF in between: the first marshal sends the
full descriptor, and the second still sends the full descriptor, not the
elided marker. -/
theorem c8_counterexample :
    elisionFirst.2 = some (RefPayload.full "T") ∧
    elisionSecond.2 = some (RefPayload.full "T") ∧
    elisionSecond.2 ≠ some (RefPayload.elided "T") :=
  ⟨rfl, rfl, by decide⟩

/-- C8 (amended): the owning side elides the descriptor exactly when the
client has acknowledged the type: after an OBJECT_REF for an object of a
type, every serialized reference to an object of that type name carries
the elided marker, while a type name never acknowledged gets the full
descriptor; on the consuming side a cache miss on an elided descriptor
only raises the warning flag and yields a metaobject with zero
properties (the connection continues), while a cache hit resolves to the
cached metaobject. -/
theorem c8_elision_by_acknowledgment :
    (∀ (s : ConnState) (idA idB : String) (qA qB : ObjRecord),
        alookup s.objects idA = some qA → alookup s.objects idB = some qB →
        qB.typeName = qA.typeName →
        (marshalRefStep (procObjectRef s idA) idB).2
          = some (RefPayload.elided qA.typeName)) ∧
    (∀ (s : ConnState) (id : String) (q : ObjRecord),
        alookup s.objects id = some q → q.typeName ∉ s.knownTypes →
        (marshalRefStep s id).2 = some (RefPayload.full q.typeName)) ∧
    (∀ (cache : List (String × List String)) (name : String),
        alookup cache name = none →
        newTypeMetaObjectF cache { name := name, omitted := true, props := [] }
          = ([], (name, []) :: cache, true)) ∧
    (∀ (cache : List (String × List String)) (t : CType) (mo : List String),
        alookup cache t.name = some mo →
        newTypeMetaObjectF cache t = (mo, cache, false)) := by
  refine ⟨?_, ?_, ?_, ?_⟩
  · intro s idA idB qA qB hA hB htype
    have hs1 : procObjectRef s idA
        = { s with objects := updateObj s.objects idA { qA with clientRef := true },
                   knownTypes := insertName s.knownTypes qA.typeName } := by
      simp only [procObjectRef, hA]
    rw [hs1]
    by_cases hid : idB = idA
    · subst hid
      have hl : alookup (updateObj s.objects idB { qA with clientRef := true }) idB
          = some { qA with clientRef := true } := alookup_update_self _ hA
      simp only [marshalRefStep, hl]
      have hmem : qA.typeName ∈ insertName s.knownTypes qA.typeName :=
        insertName_mem_self _ _
      simp only [if_pos hmem]
    · have hl : alookup (updateObj s.objects idA { qA with clientRef := true }) idB
          = some qB := by
        rw [alookup_update_ne hid]; exact hB
      simp only [marshalRefStep, hl]
      rw [htype, if_pos (insertName_mem_self s.knownTypes qA.typeName)]
  · intro s id q h hmem
    simp only [marshalRefStep, h, if_neg hmem]
  · intro cache name h
    simp only [newTypeMetaObjectF, h]
  · intro cache t mo h
    simp only [newTypeMetaObjectF, h]

/-- C8 witness: after the client acknowledges object a of type T, the
next serialized reference to a elides the descriptor. -/
theorem c8_witness :
    (marshalRefStep (procObjectRef elisionDemoState "a") "a").2
      = some (RefPayload.elided "T") :=
  c8_elision_by_acknowledgment.1 elisionDemoState "a" "a"
    (freshRecord "T" []) (freshRecord "T" []) rfl rfl rfl

/-- C9: OBJECT_REF is idempotent: two consecutive acquires with no
release in between leave the whole connection state exactly as one
(clientRef is a boolean, and the acknowledged-type table is a set); a
single OBJECT_DEREF afterwards clears clientRef (the record, when it
remains in the table at all, has clientRef false). -/
theorem c9_idempotent_acquire (s : ConnState) (id : String) (q : ObjRecord)
    (h : alookup s.objects id = some q) :
    procObjectRef (procObjectRef s id) id = procObjectRef s id ∧
    (∀ q2, alookup (procObjectDeref (procObjectRef s id) id).objects id = some q2 →
        q2.clientRef = false) := by
  have h1 : alookup (updateObj s.objects id { q with clientRef := true }) id
      = some { q with clientRef := true } := alookup_update_self _ h
  have hs1 : procObjectRef s id
      = { s with objects := updateObj s.objects id { q with clientRef := true },
                 knownTypes := insertName s.knownTypes q.typeName } := by
    simp only [procObjectRef, h]
  constructor
  · rw [hs1]
    simp only [procObjectRef, h1]
    rw [updateObj_updateObj]
    have h3 : insertName (insertName s.knownTypes q.typeName)
        ({ q with clientRef := true } : ObjRecord).typeName
        = insertName s.knownTypes q.typeName := insertName_idem _ _
    rw [h3]
  · intro q2 h2
    rw [hs1] at h2
    simp only [procObjectDeref, h1] at h2
    by_cases hcond : (!q.syncRef && !q.syncPendingRef) = true
    · rw [show (!({ q with clientRef := true } : ObjRecord).syncRef
            && !({ q with clientRef := true } : ObjRecord).syncPendingRef) = true from hcond] at h2
      simp only [if_true, removeObjectF, alookup_erase_self] at h2
      exact absurd h2 (by simp)
    · rw [Bool.not_eq_true] at hcond
      rw [show (!({ q with clientRef := true } : ObjRecord).syncRef
            && !({ q with clientRef := true } : ObjRecord).syncPendingRef) = false from hcond] at h2
      simp only [Bool.false_eq_true, if_false] at h2
      rw [alookup_update_self _ h1] at h2
      cases h2
      rfl

/-- C9 witness: a second acquire of object a is a no-op on the whole
connection state. -/
theorem c9_witness :
    procObjectRef (procObjectRef invokeDemoState "a") "a"
      = procObjectRef invokeDemoState "a" :=
  (c9_idempotent_acquire invokeDemoState "a"
    { freshRecord "T" ["foo"] with clientRef := true } rfl).1

/-- C10: Changed is exactly ResetProperties: the property argument (even
one naming no property of the object) is ignored; a referenced object
with a connection sends exactly one OBJECT_RESET carrying the full
property snapshot, and an unreferenced object sends nothing. -/
theorem c10_changed_equals_reset :
    (∀ (o : BQObject) (p1 p2 : String),
        changedO o p1 = resetPropertiesO o ∧ changedO o p1 = changedO o p2) ∧
    (∀ (o : BQObject) (p : String), o.ref = true → o.hasConn = true →
        changedO o p = [.objectReset o.id o.props]) ∧
    (∀ (o : BQObject) (p : String), o.ref = false → changedO o p = []) := by
  refine ⟨fun o p1 p2 => ⟨rfl, rfl⟩, ?_, ?_⟩
  · intro o p href hconn
    unfold changedO resetPropertiesO sendUpdateO
    rw [href, hconn]
    simp
  · intro o p href
    unfold changedO resetPropertiesO
    rw [href]
    simp

/-- C10 witness: a referenced object with a connection emits the full
reset for an arbitrary property name. -/
theorem c10_witness :
    changedO { ref := true, hasConn := true, id := "o", props := [] } "notAProp"
      = [.objectReset "o" []] :=
  c10_changed_equals_reset.2.1
    { ref := true, hasConn := true, id := "o", props := [] } "notAProp" rfl rfl

/-
Framing lemmas for C5.
-/

theorem natDigitsAux_eq : ∀ (fuel n : Nat), n ≤ fuel → natDigitsAux fuel n = Nat.digits 10 n := by
  intro fuel
  induction fuel with
  | zero =>
      intro n h
      have : n = 0 := Nat.le_zero.mp h
      subst this
      rw [Nat.digits_zero]
      rfl
  | succ k ih =>
      intro n h
      cases n with
      | zero =>
          rw [Nat.digits_zero]
          rfl
      | succ m =>
          rw [natDigitsAux]
          rw [ih ((m + 1) / 10) (by
            have := Nat.div_lt_self (Nat.succ_pos m) (by norm_num : 1 < 10)
            omega)]
          rw [Nat.digits_def' (by norm_num : 1 < 10) (Nat.succ_pos m)]

theorem natDecimalDigits_eq (n : Nat) :
    natDecimalDigits n = (Nat.digits 10 n).reverse.map (· + 48) := by
  unfold natDecimalDigits
  rw [natDigitsAux_eq n n le_rfl]

theorem natDecimalDigits_mem {n b : Nat} (hb : b ∈ natDecimalDigits n) :
    48 ≤ b ∧ b ≤ 57 := by
  rw [natDecimalDigits_eq] at hb
  rcases List.mem_map.mp hb with ⟨d, hd, rfl⟩
  have hd10 : d < 10 := Nat.digits_lt_base (by norm_num) (List.mem_reverse.mp hd)
  omega

theorem natDecimalDigits_ne_nil {n : Nat} (hn : 1 ≤ n) : natDecimalDigits n ≠ [] := by
  rw [natDecimalDigits_eq]
  intro h
  rcases List.map_eq_nil_iff.mp h with h2
  have h3 : Nat.digits 10 n = [] := by
    cases hL : Nat.digits 10 n with
    | nil => rfl
    | cons a t => rw [hL] at h2; simp at h2
  exact Nat.digits_ne_nil_iff_ne_zero.mpr (by omega) h3

theorem foldl_digits (ds : List Nat) (a : Nat) :
    (ds.reverse.map (fun d => d + 48)).foldl (fun x d => 10 * x + (d - 48)) a
      = a * 10 ^ ds.length + Nat.ofDigits 10 ds := by
  induction ds generalizing a with
  | nil => simp
  | cons d t ih =>
      simp only [List.reverse_cons, List.map_append, List.foldl_append, List.map_cons,
        List.map_nil, List.foldl_cons, List.foldl_nil, ih, List.length_cons,
        Nat.ofDigits_cons]
      have h48 : d + 48 - 48 = d := by omega
      rw [h48, pow_succ]
      ring

theorem digitsToNat_encode (n : Nat) : digitsToNat (natDecimalDigits n) = n := by
  unfold digitsToNat
  rw [natDecimalDigits_eq, foldl_digits]
  simp [Nat.ofDigits_digits]

theorem parseGoInt_encode {n : Nat} (h1 : 1 ≤ n) (h2 : n ≤ 2 ^ 31 - 1) :
    parseGoInt (natDecimalDigits n) = n := by
  obtain ⟨d, t, hd⟩ : ∃ d t, natDecimalDigits n = d :: t := by
    cases hnd : natDecimalDigits n with
    | nil => exact absurd hnd (natDecimalDigits_ne_nil h1)
    | cons d t => exact ⟨d, t, rfl⟩
  have hdm : 48 ≤ d ∧ d ≤ 57 := natDecimalDigits_mem (hd ▸ List.mem_cons_self d t)
  have hsign : stripSign (natDecimalDigits n) = (false, natDecimalDigits n) := by
    rw [hd]
    show (if d = 43 then ((false : Bool), t)
          else if d = 45 then (true, t) else (false, d :: t)) = (false, d :: t)
    rw [if_neg (by omega : ¬ d = 43), if_neg (by omega : ¬ d = 45)]
  have hne : (natDecimalDigits n).isEmpty = false := by rw [hd]; rfl
  have hall : (natDecimalDigits n).all isDigitB = true := by
    rw [List.all_eq_true]
    intro b hb
    have hm := natDecimalDigits_mem hb
    unfold isDigitB
    rw [Bool.and_eq_true, decide_eq_true_eq, decide_eq_true_eq]
    exact hm
  simp only [parseGoInt, hsign, hne, hall, Bool.not_true, Bool.or_false, Bool.false_eq_true,
    if_false, digitsToNat_encode]
  have hpow : (2 : Int) ^ 31 = 2147483648 := by norm_num
  have hpn : (2 : Nat) ^ 31 - 1 = 2147483647 := by norm_num
  rw [hpn] at h2
  have hcast : (n : Int) ≤ 2147483647 := by exact_mod_cast h2
  have hge : (0 : Int) ≤ (n : Int) := Int.natCast_nonneg n
  rw [if_neg (by rw [hpow]; omega), if_neg (by rw [hpow]; omega)]

theorem splitAtFirst_append_sep {sep : Nat} {x : List Nat} (y : List Nat)
    (hx : ∀ b ∈ x, b ≠ sep) : splitAtFirst sep (x ++ sep :: y) = some (x, y) := by
  induction x with
  | nil => simp [splitAtFirst]
  | cons a t ih =>
      have ha : a ≠ sep := hx a (List.mem_cons_self a t)
      rw [List.cons_append]
      unfold splitAtFirst
      rw [if_neg ha, ih (fun b hb => hx b (List.mem_cons_of_mem a hb))]

theorem splitAtFirst_eq {sep : Nat} : ∀ {l x y : List Nat},
    splitAtFirst sep l = some (x, y) → l = x ++ sep :: y := by
  intro l
  induction l with
  | nil => intro x y h; simp [splitAtFirst] at h
  | cons a t ih =>
      intro x y h
      unfold splitAtFirst at h
      by_cases ha : a = sep
      · rw [if_pos ha] at h
        cases h
        simp [ha]
      · rw [if_neg ha] at h
        cases hs : splitAtFirst sep t with
        | none => rw [hs] at h; exact absurd h (by simp)
        | some pr =>
            obtain ⟨x1, y1⟩ := pr
            rw [hs] at h
            cases h
            rw [List.cons_append]
            rw [← ih hs]

theorem splitAtFirst_not_mem {sep : Nat} : ∀ {l x y : List Nat},
    splitAtFirst sep l = some (x, y) → ∀ b ∈ x, b ≠ sep := by
  intro l
  induction l with
  | nil => intro x y h; simp [splitAtFirst] at h
  | cons a t ih =>
      intro x y h
      unfold splitAtFirst at h
      by_cases ha : a = sep
      · rw [if_pos ha] at h
        cases h
        intro b hb
        exact absurd hb (List.not_mem_nil b)
      · rw [if_neg ha] at h
        cases hs : splitAtFirst sep t with
        | none => rw [hs] at h; exact absurd h (by simp)
        | some pr =>
            obtain ⟨x1, y1⟩ := pr
            rw [hs] at h
            cases h
            intro b hb
            rcases List.mem_cons.mp hb with hb | hb
            · rw [hb]; exact ha
            · exact ih hs b hb

theorem splitAtFirst_append_stable {sep : Nat} {b x y : List Nat} (c : List Nat)
    (h : splitAtFirst sep b = some (x, y)) :
    splitAtFirst sep (b ++ c) = some (x, y ++ c) := by
  have hb : b = x ++ sep :: y := splitAtFirst_eq h
  have hx : ∀ b2 ∈ x, b2 ≠ sep := splitAtFirst_not_mem h
  rw [hb, List.append_assoc, List.cons_append]
  exact splitAtFirst_append_sep (y ++ c) hx

theorem encodeFrame_eq (p rest : List Nat) :
    encodeFrame p ++ rest = natDecimalDigits p.length ++ 32 :: (p ++ 10 :: rest) := by
  unfold encodeFrame
  simp [List.append_assoc]

theorem readFrame_encode {p : List Nat} (hne : p ≠ []) (hlen : p.length ≤ 2 ^ 31 - 1)
    (rest : List Nat) : readFrame (encodeFrame p ++ rest) = .frame p rest := by
  have hlen1 : 1 ≤ p.length := List.length_pos.mpr hne
  have hdig : ∀ b ∈ natDecimalDigits p.length, b ≠ 32 := by
    intro b hb
    have := natDecimalDigits_mem hb
    omega
  have hne2 : (natDecimalDigits p.length).isEmpty = false := by
    cases hnd : natDecimalDigits p.length with
    | nil => exact absurd hnd (natDecimalDigits_ne_nil hlen1)
    | cons d t => rfl
  rw [encodeFrame_eq]
  unfold readFrame
  rw [splitAtFirst_append_sep _ hdig]
  dsimp only
  rw [hne2]
  simp only [Bool.false_eq_true, if_false]
  rw [parseGoInt_encode hlen1 hlen]
  have hnot1 : ¬ ((p.length : Int) < 1) := by
    have : (1 : Int) ≤ (p.length : Int) := by exact_mod_cast hlen1
    omega
  rw [if_neg hnot1]
  have htn : ((p.length : Int)).toNat = p.length := Int.toNat_natCast p.length
  rw [htn]
  have hlen2 : (p ++ 10 :: rest).length = p.length + (rest.length + 1) := by
    simp [List.length_append]
  have hnot2 : ¬ ((p ++ 10 :: rest).length < p.length + 1) := by
    rw [hlen2]; omega
  rw [if_neg hnot2]
  have hget : (p ++ 10 :: rest).get? p.length = some 10 := by
    rw [List.get?_append_right (le_refl p.length)]
    simp
  rw [if_neg (by rw [hget]; exact not_not_intro rfl)]
  have htake : (p ++ 10 :: rest).take p.length = p := by
    rw [List.take_append_of_le_length (le_refl p.length), List.take_length]
  have hdrop : (p ++ 10 :: rest).drop (p.length + 1) = rest := by
    have hsplit : p ++ 10 :: rest = (p ++ [10]) ++ rest := by simp
    rw [hsplit]
    have hlen3 : (p ++ [10]).length = p.length + 1 := by simp
    rw [← hlen3, List.drop_left]
  rw [htake, hdrop]

theorem readFrame_length {buf p r : List Nat} (h : readFrame buf = .frame p r) :
    r.length < buf.length := by
  unfold readFrame at h
  cases hs : splitAtFirst 32 buf with
  | none => rw [hs] at h; exact absurd h (by simp)
  | some pr =>
      obtain ⟨sz, rest⟩ := pr
      rw [hs] at h
      dsimp only at h
      by_cases he : sz.isEmpty = true
      · rw [if_pos he] at h; exact absurd h (by simp)
      rw [if_neg he] at h
      by_cases hn : parseGoInt sz < 1
      · rw [if_pos hn] at h; exact absurd h (by simp)
      rw [if_neg hn] at h
      by_cases hl : rest.length < (parseGoInt sz).toNat + 1
      · rw [if_pos hl] at h; exact absurd h (by simp)
      rw [if_neg hl] at h
      by_cases hg : rest.get? (parseGoInt sz).toNat ≠ some 10
      · rw [if_pos hg] at h; exact absurd h (by simp)
      rw [if_neg hg] at h
      cases h
      have hb : buf = sz ++ 32 :: rest := splitAtFirst_eq hs
      rw [hb]
      simp only [List.length_drop, List.length_append, List.length_cons]
      omega

theorem readFrame_frame_append {b p r : List Nat} (c : List Nat)
    (h : readFrame b = .frame p r) : readFrame (b ++ c) = .frame p (r ++ c) := by
  unfold readFrame at h ⊢
  cases hs : splitAtFirst 32 b with
  | none => rw [hs] at h; exact absurd h (by simp)
  | some pr =>
      obtain ⟨sz, rest⟩ := pr
      rw [hs] at h
      rw [splitAtFirst_append_stable c hs]
      dsimp only at h ⊢
      by_cases he : sz.isEmpty = true
      · rw [if_pos he] at h; exact absurd h (by simp)
      rw [if_neg he] at h ⊢
      by_cases hn : parseGoInt sz < 1
      · rw [if_pos hn] at h; exact absurd h (by simp)
      rw [if_neg hn] at h ⊢
      by_cases hl : rest.length < (parseGoInt sz).toNat + 1
      · rw [if_pos hl] at h; exact absurd h (by simp)
      rw [if_neg hl] at h
      have hl2 : ¬ ((rest ++ c).length < (parseGoInt sz).toNat + 1) := by
        rw [List.length_append]; omega
      rw [if_neg hl2]
      by_cases hg : rest.get? (parseGoInt sz).toNat ≠ some 10
      · rw [if_pos hg] at h; exact absurd h (by simp)
      rw [if_neg hg] at h
      have hnn : (parseGoInt sz).toNat < rest.length := by omega
      have hg2 : (rest ++ c).get? (parseGoInt sz).toNat = rest.get? (parseGoInt sz).toNat :=
        List.get?_append hnn
      rw [if_neg (by rw [hg2]; exact hg)]
      cases h
      rw [List.take_append_of_le_length (by omega), List.drop_append_of_le_length (by omega)]

theorem readFrame_err_append {b : List Nat} (c : List Nat)
    (h : readFrame b = .errR) : readFrame (b ++ c) = .errR := by
  unfold readFrame at h ⊢
  cases hs : splitAtFirst 32 b with
  | none => rw [hs] at h; exact absurd h (by simp)
  | some pr =>
      obtain ⟨sz, rest⟩ := pr
      rw [hs] at h
      rw [splitAtFirst_append_stable c hs]
      dsimp only at h ⊢
      by_cases he : sz.isEmpty = true
      · rw [if_pos he]
      rw [if_neg he] at h ⊢
      by_cases hn : parseGoInt sz < 1
      · rw [if_pos hn]
      rw [if_neg hn] at h ⊢
      by_cases hl : rest.length < (parseGoInt sz).toNat + 1
      · rw [if_pos hl] at h; exact absurd h (by simp)
      rw [if_neg hl] at h
      have hl2 : ¬ ((rest ++ c).length < (parseGoInt sz).toNat + 1) := by
        rw [List.length_append]; omega
      rw [if_neg hl2]
      have hnn : (parseGoInt sz).toNat < rest.length := by omega
      have hg2 : (rest ++ c).get? (parseGoInt sz).toNat = rest.get? (parseGoInt sz).toNat :=
        List.get?_append hnn
      by_cases hg : rest.get? (parseGoInt sz).toNat ≠ some 10
      · rw [if_pos (by rw [hg2]; exact hg)]
      · rw [if_neg hg] at h; exact absurd h (by simp)

theorem extractAllF_nil (fuel : Nat) : extractAllF fuel [] = ([], some []) := by
  cases fuel with
  | zero => rfl
  | succ k => rfl

theorem extractAllF_fuel : ∀ (f1 f2 : Nat) (buf : List Nat),
    buf.length ≤ f1 → buf.length ≤ f2 → extractAllF f1 buf = extractAllF f2 buf := by
  intro f1
  induction f1 with
  | zero =>
      intro f2 buf h1 _
      have hb : buf = [] := List.eq_nil_of_length_eq_zero (Nat.le_zero.mp h1)
      subst hb
      rw [extractAllF_nil, extractAllF_nil]
  | succ k ih =>
      intro f2 buf h1 h2
      cases f2 with
      | zero =>
          have hb : buf = [] := List.eq_nil_of_length_eq_zero (Nat.le_zero.mp h2)
          subst hb
          rw [extractAllF_nil, extractAllF_nil]
      | succ j =>
          show extractAllF (k + 1) buf = extractAllF (j + 1) buf
          unfold extractAllF
          cases hr : readFrame buf with
          | incomplete => rfl
          | errR => rfl
          | frame p r =>
              have hlt := readFrame_length hr
              dsimp only
              rw [ih j r (by omega) (by omega)]

theorem extractAll_unfold (buf : List Nat) :
    extractAll buf = match readFrame buf with
      | .incomplete => ([], some buf)
      | .errR => ([], none)
      | .frame p r => (p :: (extractAll r).1, (extractAll r).2) := by
  cases hb : buf with
  | nil => rfl
  | cons a t =>
      show extractAllF (t.length + 1) (a :: t) = _
      unfold extractAllF
      cases hr : readFrame (a :: t) with
      | incomplete => rfl
      | errR => rfl
      | frame p r =>
          have hlt := readFrame_length hr
          dsimp only
          have hfuel : extractAllF t.length r = extractAllF r.length r := by
            apply extractAllF_fuel
            · simp only [List.length_cons] at hlt; omega
            · exact le_refl _
          rw [hfuel]
          rfl

theorem extractAll_leftover : ∀ (n : Nat) (b r : List Nat), b.length ≤ n →
    (extractAll b).2 = some r → readFrame r = .incomplete := by
  intro n
  induction n with
  | zero =>
      intro b r hb h
      have hbe : b = [] := List.eq_nil_of_length_eq_zero (Nat.le_zero.mp hb)
      subst hbe
      have h2 : some ([] : List Nat) = some r := h
      cases h2
      rfl
  | succ k ih =>
      intro b r hb h
      rw [extractAll_unfold b] at h
      cases hr : readFrame b with
      | incomplete =>
          rw [hr] at h
          dsimp only at h
          cases h
          exact hr
      | errR => rw [hr] at h; exact absurd h (by simp)
      | frame p r0 =>
          rw [hr] at h
          dsimp only at h
          have hlt := readFrame_length hr
          exact ih r0 r (by omega) h

theorem extractAll_of_incomplete {r : List Nat} (hr : readFrame r = .incomplete) :
    extractAll r = ([], some r) := by
  rw [extractAll_unfold, hr]

theorem extractAll_err_append : ∀ (n : Nat) (b c : List Nat), b.length ≤ n →
    (extractAll b).2 = none → (extractAll (b ++ c)).2 = none := by
  intro n
  induction n with
  | zero =>
      intro b c hb h
      have hbe : b = [] := List.eq_nil_of_length_eq_zero (Nat.le_zero.mp hb)
      subst hbe
      have h2 : some ([] : List Nat) = none := h
      exact absurd h2 (by simp)
  | succ k ih =>
      intro b c hb h
      rw [extractAll_unfold b] at h
      rw [extractAll_unfold (b ++ c)]
      cases hr : readFrame b with
      | incomplete =>
          rw [hr] at h
          exact absurd h (by simp)
      | errR =>
          rw [readFrame_err_append c hr]
      | frame p r0 =>
          rw [hr] at h
          dsimp only at h
          rw [readFrame_frame_append c hr]
          dsimp only
          have hlt := readFrame_length hr
          exact ih r0 c (by omega) h

theorem extractAll_append : ∀ (n : Nat) (b c r : List Nat), b.length ≤ n →
    (extractAll b).2 = some r →
    extractAll (b ++ c)
      = ((extractAll b).1 ++ (extractAll (r ++ c)).1, (extractAll (r ++ c)).2) := by
  intro n
  induction n with
  | zero =>
      intro b c r hb h
      have hbe : b = [] := List.eq_nil_of_length_eq_zero (Nat.le_zero.mp hb)
      subst hbe
      have h2 : some ([] : List Nat) = some r := h
      cases h2
      show extractAll ([] ++ c) = ([] ++ (extractAll ([] ++ c)).1, (extractAll ([] ++ c)).2)
      simp only [List.nil_append, Prod.mk.eta]
  | succ k ih =>
      intro b c r hb h
      rw [extractAll_unfold b] at h ⊢
      cases hr : readFrame b with
      | incomplete =>
          rw [hr] at h
          dsimp only at h ⊢
          cases h
          show extractAll (b ++ c) = ([] ++ (extractAll (b ++ c)).1, (extractAll (b ++ c)).2)
          simp only [List.nil_append, Prod.mk.eta]
      | errR =>
          rw [hr] at h
          dsimp only at h
          exact absurd h (by simp)
      | frame p r0 =>
          rw [hr] at h
          dsimp only at h ⊢
          have hlt := readFrame_length hr
          have ihr := ih r0 c r (by omega) h
          rw [extractAll_unfold (b ++ c), readFrame_frame_append c hr]
          dsimp only
          rw [ihr]
          simp

theorem runChunks_spec : ∀ (chunks : List (List Nat)) (buf : List Nat)
    (fs : List (List Nat)) (r : List Nat),
    readFrame buf = .incomplete →
    extractAll (buf ++ chunks.flatten) = (fs, some r) →
    runChunks chunks buf = some (fs, r) := by
  intro chunks
  induction chunks with
  | nil =>
      intro buf fs r hinc h
      rw [List.flatten_nil, List.append_nil, extractAll_of_incomplete hinc] at h
      cases h
      rfl
  | cons c cs ih =>
      intro buf fs r hinc h
      have hassoc : buf ++ (c :: cs).flatten = (buf ++ c) ++ cs.flatten := by
        rw [List.flatten_cons, List.append_assoc]
      rw [hassoc] at h
      cases hE : (extractAll (buf ++ c)).2 with
      | none =>
          have herr := extractAll_err_append (buf ++ c).length (buf ++ c) cs.flatten
            (le_refl _) hE
          rw [h] at herr
          exact absurd herr (by simp)
      | some r1 =>
          have hdec := extractAll_append (buf ++ c).length (buf ++ c) cs.flatten r1
            (le_refl _) hE
          rw [h] at hdec
          have hinc1 : readFrame r1 = .incomplete :=
            extractAll_leftover (buf ++ c).length (buf ++ c) r1 (le_refl _) hE
          cases hE2 : extractAll (r1 ++ cs.flatten) with
          | mk fs2 e2 =>
              rw [hE2] at hdec
              have hfs : fs = (extractAll (buf ++ c)).1 ++ fs2 :=
                congrArg Prod.fst hdec
              have he2 : e2 = some r := (congrArg Prod.snd hdec).symm
              subst he2
              have hrun := ih r1 fs2 r hinc1 hE2
              show runChunks (c :: cs) buf = some (fs, r)
              unfold runChunks
              have hEfull : extractAll (buf ++ c) = ((extractAll (buf ++ c)).1, some r1) := by
                rw [← hE]
              rw [hEfull]
              dsimp only
              rw [hrun]
              dsimp only
              rw [hfs]

/-- C5: framing round-trip and split-invariance.  Encoding each payload
of a finite sequence of non-empty payloads (of length within int32, as
the reader parses the size into 32 bits) as decimal length, space,
payload, newline and concatenating, then feeding the bytes to the
chunked frame reader split at arbitrary boundaries, yields exactly the
original payload sequence in order with an empty final buffer; payloads
may contain newline bytes because the terminator is located by counted
position. -/
theorem c5_framing_roundtrip (msgs chunks : List (List Nat))
    (hmsgs : ∀ p ∈ msgs, p ≠ [] ∧ p.length ≤ 2 ^ 31 - 1)
    (hstream : chunks.flatten = encodeFrames msgs) :
    runChunks chunks [] = some (msgs, []) := by
  have hext : extractAll (encodeFrames msgs) = (msgs, some []) := by
    clear hstream
    induction msgs with
    | nil => rfl
    | cons m ms ih =>
        have hm := hmsgs m (List.mem_cons_self m ms)
        have htail : ∀ p ∈ ms, p ≠ [] ∧ p.length ≤ 2 ^ 31 - 1 := fun p hp =>
          hmsgs p (List.mem_cons_of_mem m hp)
        have henc : encodeFrames (m :: ms) = encodeFrame m ++ encodeFrames ms := by
          unfold encodeFrames
          rw [List.map_cons, List.flatten_cons]
        rw [henc, extractAll_unfold, readFrame_encode hm.1 hm.2]
        dsimp only
        rw [ih htail]
  apply runChunks_spec chunks [] msgs []
  · rfl
  · rw [List.nil_append, hstream]
    exact hext

/-- C5 witness: two payloads, the first containing a newline byte and
the second a single space byte, encoded and split across three chunk
boundaries that cut through the middle of both frames, decode to exactly
the original sequence. -/
theorem c5_witness :
    (∀ p ∈ [[72, 10, 33], [32]], p ≠ [] ∧ p.length ≤ 2 ^ 31 - 1) ∧
    ([[51, 32, 72], [10, 33], [10, 49, 32, 32, 10]] : List (List Nat)).flatten
      = encodeFrames [[72, 10, 33], [32]] ∧
    runChunks [[51, 32, 72], [10, 33], [10, 49, 32, 32, 10]] []
      = some ([[72, 10, 33], [32]], []) :=
  ⟨by decide, by decide,
   c5_framing_roundtrip [[72, 10, 33], [32]] [[51, 32, 72], [10, 33], [10, 49, 32, 32, 10]]
     (by decide) (by decide)⟩

end QBackend
